import Mathlib

/-!
Shallow embedding of `build_book.py` (chapter parser, typographic
normalizer, document assembler) and verification of its specification.

Modelling conventions:
* Python strings are Lean `String`s; most reasoning happens on `List Char`.
* `str.strip()` and the regex class `\s` are modelled over the ASCII
  whitespace characters (space, tab, newline, carriage return, vertical
  tab, form feed); Unicode whitespace is out of scope of the claims.
* The regex class `\d` is modelled as the ASCII digits `0`-`9`.
* Reading files is the caller's I/O; `parse_chapter` is modelled on the
  already-read text, and the CSS template text is an explicit parameter
  of `build_html` (the source reads it from a fixed path).
-/

namespace BuildBook

/-- The ASCII whitespace characters recognised by Python's `str.strip()`
and by the regex class `\s` (restricted to ASCII, see module docstring). -/
def pyIsSpace (c : Char) : Bool :=
  c = ' ' || c = '\t' || c = '\n' || c = '\r' || c = '\x0b' || c = '\x0c'

/-- `str.strip()` on the character list: drop whitespace from both ends. -/
def stripChars (l : List Char) : List Char :=
  ((l.dropWhile pyIsSpace).reverse.dropWhile pyIsSpace).reverse

/-- Python `line.strip()`. -/
def pyStrip (s : String) : String := String.mk (stripChars s.data)

/-- Python `text.split('\n')`: split at every newline, keeping empty
pieces; the empty string yields `[""]`. -/
def splitNlAux : List Char → List Char → List String
  | cur, [] => [String.mk cur]
  | cur, c :: rest =>
    if c = '\n' then String.mk cur :: splitNlAux [] rest
    else splitNlAux (cur ++ [c]) rest

/-- `text.split('\n')` on a Lean string. -/
def splitNl (s : String) : List String := splitNlAux [] s.data

/-- `re.match(r'^CHAPTER\s+\d+', line)`: the literal word `CHAPTER`,
then at least one whitespace character, then at least one digit, anchored
at the start of the line (the rest of the line is unconstrained). -/
def headingMatch (s : String) : Bool :=
  match s.data with
  | 'C' :: 'H' :: 'A' :: 'P' :: 'T' :: 'E' :: 'R' :: rest =>
    match rest with
    | c :: cs =>
      pyIsSpace c &&
        (match cs.dropWhile pyIsSpace with
         | d :: _ => d.isDigit
         | [] => false)
    | [] => false
  | _ => false

/-- The tagged union of chapter content elements built by `parse_chapter`
(`('heading', text)`, `('subtitle', text)`, `('scene_break', None)`,
`('paragraph', text)`). -/
inductive ContentElement : Type
  | heading (text : String)
  | subtitle (text : String)
  | sceneBreak
  | paragraph (text : String)
deriving DecidableEq, Repr

/-- Python `' '.join(para_lines)`. -/
def joinSpace : List String → String
  | [] => ""
  | [s] => s
  | s :: rest => s ++ " " ++ joinSpace rest

/-- The `flush_para` closure of `parse_chapter`: a non-empty accumulator
is joined with single spaces into one paragraph element; an empty
accumulator yields nothing. -/
def flushPara (acc : List String) : List ContentElement :=
  if acc = [] then [] else [ContentElement.paragraph (joinSpace acc)]

/-- The `while i < len(lines)` loop of `parse_chapter` (lines after the
heading/subtitle prologue), with the pending-paragraph accumulator as an
explicit first argument. -/
def parseBody : List String → List String → List ContentElement
  | acc, [] => flushPara acc
  | acc, l :: rest =>
    let s := pyStrip l
    if s = "* * *" then
      flushPara acc ++ ContentElement.sceneBreak :: parseBody [] rest
    else if s = "" then
      flushPara acc ++ parseBody [] rest
    else
      parseBody (acc ++ [s]) rest

/-- `parse_chapter` on the already-split line list: heading test on the
first line, blank-line skip, optional subtitle, then the body loop. -/
def parseLines (lines : List String) : List ContentElement :=
  match lines with
  | [] => parseBody [] []
  | l :: rest =>
    if headingMatch l then
      match rest.dropWhile (fun x => pyStrip x = "") with
      | [] => ContentElement.heading l :: parseBody [] []
      | s :: rest2 =>
          ContentElement.heading l :: ContentElement.subtitle s :: parseBody [] rest2
    else
      parseBody [] lines

/-- `parse_chapter` on the raw chapter text (file reading is the
caller's I/O; the text is `f.read()`). -/
def parse_chapter (text : String) : List ContentElement :=
  parseLines (splitNl text)

/-- `typographic_substitutions`: Python `text.replace('--', '—')`,
the left-to-right non-overlapping replacement, on the character list. -/
def replaceDashes : List Char → List Char
  | [] => []
  | [c] => [c]
  | c :: d :: rest =>
    if c = '-' ∧ d = '-' then '—' :: replaceDashes rest
    else c :: replaceDashes (d :: rest)

/-- `typographic_substitutions(text)`. -/
def typographic_substitutions (s : String) : String :=
  String.mk (replaceDashes s.data)

/-- One character under `html.escape` (with quoting, the default):
`&`, `<`, `>`, `"`, `'` become entities, all else is unchanged. -/
def escChar (c : Char) : List Char :=
  if c = '&' then "&amp;".data
  else if c = '<' then "&lt;".data
  else if c = '>' then "&gt;".data
  else if c = '"' then "&quot;".data
  else if c = '\'' then "&#x27;".data
  else [c]

/-- `html.escape(text)` (quote=True): the five sequential `replace`
calls are equivalent to this character-wise map because no replacement
string contains a character replaced later. -/
def htmlEscape (s : String) : String := String.mk (s.data.flatMap escChar)

/-- Python truthiness of an optional string (`if title or author:`,
`if title:`): `None` and the empty string are falsy. -/
def isTruthy : Option String → Bool
  | none => false
  | some s => s ≠ ""

/-- The title-page parts emitted by `build_html` when `title or author`
is truthy. -/
def titleParts (title author : Option String) : List String :=
  if isTruthy title || isTruthy author then
    "<div class=\"title-page\">\n" ::
      ((if isTruthy title then
          ["  <div class=\"book-title\">" ++
            htmlEscape (title.getD "") ++ "</div>\n"]
        else []) ++
       (if isTruthy author then
          ["  <div class=\"book-author\">" ++
            htmlEscape (author.getD "") ++ "</div>\n"]
        else []) ++
       ["</div>\n"])
  else []

/-- The `for kind, text in elements` loop of `build_html`, with the
`need_no_indent` flag as an explicit argument; returns the emitted parts. -/
def renderElems : Bool → List ContentElement → List String
  | _, [] => []
  | _, ContentElement.heading t :: rest =>
    ("  <div class=\"chapter-heading\">" ++
      typographic_substitutions (htmlEscape t) ++ "</div>\n") :: renderElems true rest
  | _, ContentElement.subtitle t :: rest =>
    ("  <div class=\"chapter-subtitle\">" ++
      typographic_substitutions (htmlEscape t) ++ "</div>\n") :: renderElems true rest
  | _, ContentElement.sceneBreak :: rest =>
    "  <div class=\"scene-break\">* &ensp; * &ensp; *</div>\n" :: renderElems true rest
  | flag, ContentElement.paragraph t :: rest =>
    let escaped := typographic_substitutions (htmlEscape t)
    if flag then
      ("  <p class=\"no-indent\">" ++ escaped ++ "</p>\n") :: renderElems false rest
    else
      ("  <p>" ++ escaped ++ "</p>\n") :: renderElems false rest

/-- The `for elements in chapters` loop of `build_html`: each chapter is
opened with its container, rendered with the flag reset to `False`, and
closed. -/
def chapterParts : List (List ContentElement) → List String
  | [] => []
  | ch :: rest =>
    "<div class=\"chapter\">\n" ::
      (renderElems false ch ++ ("</div>\n" :: chapterParts rest))

/-- `build_html(chapters, title, author)`; the CSS text extracted from
the template file is passed in explicitly (see module docstring). -/
def build_html (css : String) (chapters : List (List ContentElement))
    (title author : Option String) : String :=
  String.join
    (["<!DOCTYPE html>\n<html lang=\"en\">\n<head>\n<meta charset=\"UTF-8\">\n<style>",
      css,
      "</style>\n</head>\n<body>\n"] ++
     titleParts title author ++
     chapterParts chapters ++
     ["</body>\n</html>\n"])

/-- A character list is clean when it neither starts nor ends with a
whitespace character (in the `pyIsSpace` sense). -/
def cleanL (l : List Char) : Prop :=
  (∀ c, l.head? = some c → pyIsSpace c = false) ∧
  (∀ c, l.getLast? = some c → pyIsSpace c = false)

/-- A string is clean when it is non-empty and neither starts nor ends
with whitespace; this is what `line.strip()` produces on a line whose
stripped form is non-empty. -/
def cleanS (s : String) : Prop := s ≠ "" ∧ cleanL s.data

/-- Whether the two-character sequence `--` occurs somewhere in a
character list; used to state the "no other substitution" part of the
normalizer's contract. -/
def hasDoubleDash : List Char → Bool
  | [] => false
  | [_] => false
  | c :: d :: rest => (c = '-' && d = '-') || hasDoubleDash (d :: rest)

/-- The markup emitted for one chapter: its container around the parts of
the element loop (started with the suppress flag down). -/
def renderChapter (ch : List ContentElement) : String :=
  "<div class=\"chapter\">\n" ++ String.join (renderElems false ch) ++ "</div>\n"

/-- The markup emitted for the whole chapter sequence. -/
def chaptersHtml (cs : List (List ContentElement)) : String :=
  String.join (chapterParts cs)

/-- The fixed document preamble around the style block. -/
def docHeader (css : String) : String :=
  "<!DOCTYPE html>\n<html lang=\"en\">\n<head>\n<meta charset=\"UTF-8\">\n<style>" ++
    css ++ "</style>\n</head>\n<body>\n"

theorem head?_dropWhile_false {p : Char → Bool} :
    ∀ {l : List Char} {c : Char}, (l.dropWhile p).head? = some c → p c = false := by
  intro l
  induction l with
  | nil => intro c h; simp at h
  | cons a t ih =>
    intro c h
    by_cases ha : p a
    · rw [List.dropWhile_cons_of_pos ha] at h
      exact ih h
    · rw [List.dropWhile_cons_of_neg ha] at h
      simp at h
      rw [← h]
      exact Bool.not_eq_true _ |>.mp ha

theorem getLast?_dropWhile_some {p : Char → Bool} :
    ∀ {l : List Char} {c : Char}, (l.dropWhile p).getLast? = some c → l.getLast? = some c := by
  intro l
  induction l with
  | nil => intro c h; simp at h
  | cons a t ih =>
    intro c h
    by_cases ha : p a
    · rw [List.dropWhile_cons_of_pos ha] at h
      have ht := ih h
      have htne : t ≠ [] := by
        intro he; rw [he] at ht; simp at ht
      rw [List.getLast?_cons, ht]
      rfl
    · rwa [List.dropWhile_cons_of_neg ha] at h

theorem stripChars_clean (l : List Char) : cleanL (stripChars l) := by
  unfold stripChars cleanL
  constructor
  · intro c h
    rw [List.head?_reverse] at h
    have h2 := getLast?_dropWhile_some h
    rw [List.getLast?_reverse] at h2
    exact head?_dropWhile_false h2
  · intro c h
    rw [List.getLast?_reverse] at h
    exact head?_dropWhile_false h

theorem dropWhile_eq_self_of_clean {p : Char → Bool} {l : List Char}
    (h : ∀ c, l.head? = some c → p c = false) : l.dropWhile p = l := by
  cases l with
  | nil => rfl
  | cons a t =>
    have := h a rfl
    exact List.dropWhile_cons_of_neg (by simp [this])

theorem stripChars_eq_self_of_clean {l : List Char} (h : cleanL l) :
    stripChars l = l := by
  unfold stripChars
  rw [dropWhile_eq_self_of_clean h.1]
  rw [dropWhile_eq_self_of_clean (by intro c hc; rw [List.head?_reverse] at hc; exact h.2 c hc)]
  exact List.reverse_reverse l

theorem pyStrip_eq_self_of_clean {s : String} (h : cleanL s.data) :
    pyStrip s = s := by
  unfold pyStrip
  rw [stripChars_eq_self_of_clean h]

theorem string_ne_empty_iff {s : String} : s ≠ "" ↔ s.data ≠ [] := by
  constructor
  · intro h he
    exact h (String.ext he)
  · intro h he
    rw [he] at h
    exact h rfl

theorem joinSpace_cons_cons (s t : String) (rest : List String) :
    joinSpace (s :: t :: rest) = s ++ " " ++ joinSpace (t :: rest) := rfl

theorem joinSpace_clean :
    ∀ ls : List String, ls ≠ [] → (∀ s ∈ ls, cleanS s) → cleanS (joinSpace ls) := by
  intro ls
  induction ls with
  | nil => intro h; exact absurd rfl h
  | cons a t ih =>
    intro _ hall
    cases t with
    | nil => exact hall a (by simp)
    | cons b t2 =>
      have hji := ih (by simp) (fun s hs => hall s (List.mem_cons_of_mem a hs))
      have ha := hall a (by simp)
      rw [joinSpace_cons_cons]
      constructor
      · rw [string_ne_empty_iff]
        intro he
        simp only [String.data_append] at he
        have h3 := List.append_eq_nil.mp he
        have h4 := List.append_eq_nil.mp h3.1
        exact absurd h4.2 (by decide)
      · constructor
        · intro c hc
          simp only [String.data_append, List.head?_append] at hc
          have hane : a.data ≠ [] := string_ne_empty_iff.mp ha.1
          cases hd : a.data.head? with
          | none => exact absurd (List.head?_eq_none_iff.mp hd) hane
          | some c0 =>
            rw [hd] at hc
            simp at hc
            rw [← hc]
            exact ha.2.1 c0 hd
        · intro c hc
          simp only [String.data_append, List.getLast?_append] at hc
          have hjne : (joinSpace (b :: t2)).data ≠ [] := string_ne_empty_iff.mp hji.1
          cases hd : (joinSpace (b :: t2)).data.getLast? with
          | none => exact absurd (List.getLast?_eq_none_iff.mp hd) hjne
          | some c0 =>
            rw [hd] at hc
            simp at hc
            rw [← hc]
            exact hji.2.2 c0 hd

theorem flushPara_mem {acc : List String} {e : ContentElement}
    (h : e ∈ flushPara acc) : acc ≠ [] ∧ e = ContentElement.paragraph (joinSpace acc) := by
  unfold flushPara at h
  by_cases hacc : acc = []
  · simp [hacc] at h
  · simp [hacc] at h
    exact ⟨hacc, h⟩

theorem parseBody_only_para_break :
    ∀ (ls acc : List String) (e : ContentElement), e ∈ parseBody acc ls →
      (∃ t, e = ContentElement.paragraph t) ∨ e = ContentElement.sceneBreak := by
  intro ls
  induction ls with
  | nil =>
    intro acc e h
    rw [parseBody] at h
    exact Or.inl ⟨_, (flushPara_mem h).2⟩
  | cons l rest ih =>
    intro acc e h
    rw [parseBody] at h
    by_cases h1 : pyStrip l = "* * *"
    · simp only [h1, if_pos rfl] at h
      rcases List.mem_append.mp h with hf | ht
      · exact Or.inl ⟨_, (flushPara_mem hf).2⟩
      · rcases List.mem_cons.mp ht with he | hr
        · exact Or.inr he
        · exact ih [] e hr
    · by_cases h2 : pyStrip l = ""
      · simp only [h1, h2, if_neg, if_pos rfl, reduceIte] at h
        rcases List.mem_append.mp h with hf | hr
        · exact Or.inl ⟨_, (flushPara_mem hf).2⟩
        · exact ih [] e hr
      · simp only [h1, h2, reduceIte] at h
        exact ih _ e h

theorem parseBody_para_clean :
    ∀ (ls acc : List String), (∀ s ∈ acc, cleanS s) →
      ∀ t, ContentElement.paragraph t ∈ parseBody acc ls → cleanS t := by
  intro ls
  induction ls with
  | nil =>
    intro acc hacc t h
    rw [parseBody] at h
    obtain ⟨hne, he⟩ := flushPara_mem h
    obtain rfl : t = joinSpace acc := ContentElement.paragraph.inj he
    exact joinSpace_clean acc hne hacc
  | cons l rest ih =>
    intro acc hacc t h
    rw [parseBody] at h
    by_cases h1 : pyStrip l = "* * *"
    · simp only [h1, if_pos rfl] at h
      rcases List.mem_append.mp h with hf | ht
      · obtain ⟨hne, he⟩ := flushPara_mem hf
        obtain rfl : t = joinSpace acc := ContentElement.paragraph.inj he
        exact joinSpace_clean acc hne hacc
      · rcases List.mem_cons.mp ht with he | hr
        · exact absurd he (by simp)
        · exact ih [] (by simp) t hr
    · by_cases h2 : pyStrip l = ""
      · simp only [h1, h2, reduceIte] at h
        rcases List.mem_append.mp h with hf | hr
        · obtain ⟨hne, he⟩ := flushPara_mem hf
          obtain rfl : t = joinSpace acc := ContentElement.paragraph.inj he
          exact joinSpace_clean acc hne hacc
        · exact ih [] (by simp) t hr
      · simp only [h1, h2, reduceIte] at h
        refine ih _ ?_ t h
        intro s hs
        rcases List.mem_append.mp hs with hs1 | hs2
        · exact hacc s hs1
        · have : s = pyStrip l := by simpa using hs2
          rw [this]
          exact ⟨h2, stripChars_clean l.data⟩

theorem stripChars_sub {l : List Char} : ∀ c ∈ stripChars l, c ∈ l := by
  intro c hc
  unfold stripChars at hc
  rw [List.mem_reverse] at hc
  have h1 := (List.dropWhile_sublist pyIsSpace).subset hc
  rw [List.mem_reverse] at h1
  exact (List.dropWhile_sublist pyIsSpace).subset h1

theorem joinSpace_data_sub :
    ∀ (ls : List String) (c : Char), c ∈ (joinSpace ls).data →
      c = ' ' ∨ ∃ s ∈ ls, c ∈ s.data := by
  intro ls
  induction ls with
  | nil => intro c hc; simp [joinSpace] at hc
  | cons a t ih =>
    intro c hc
    cases t with
    | nil => exact Or.inr ⟨a, by simp, hc⟩
    | cons b t2 =>
      rw [joinSpace_cons_cons] at hc
      simp only [String.data_append, List.mem_append] at hc
      rcases hc with (hc | hc) | hc
      · exact Or.inr ⟨a, by simp, hc⟩
      · left
        simpa using hc
      · rcases ih c hc with h | ⟨s, hs, hcs⟩
        · exact Or.inl h
        · exact Or.inr ⟨s, List.mem_cons_of_mem a hs, hcs⟩

theorem parseBody_para_noNl :
    ∀ (ls acc : List String), (∀ s ∈ acc, '\n' ∉ s.data) → (∀ l ∈ ls, '\n' ∉ l.data) →
      ∀ t, ContentElement.paragraph t ∈ parseBody acc ls → '\n' ∉ t.data := by
  intro ls
  induction ls with
  | nil =>
    intro acc hacc _ t h hn
    rw [parseBody] at h
    obtain ⟨hne, he⟩ := flushPara_mem h
    obtain rfl : t = joinSpace acc := ContentElement.paragraph.inj he
    rcases joinSpace_data_sub acc '\n' hn with h1 | ⟨s, hs, hcs⟩
    · exact absurd h1 (by decide)
    · exact hacc s hs hcs
  | cons l rest ih =>
    intro acc hacc hls t h
    have hrest : ∀ x ∈ rest, '\n' ∉ x.data :=
      fun x hx => hls x (List.mem_cons_of_mem l hx)
    rw [parseBody] at h
    by_cases h1 : pyStrip l = "* * *"
    · simp only [h1, if_pos rfl] at h
      rcases List.mem_append.mp h with hf | ht
      · obtain ⟨hne, he⟩ := flushPara_mem hf
        obtain rfl : t = joinSpace acc := ContentElement.paragraph.inj he
        intro hn
        rcases joinSpace_data_sub acc '\n' hn with hsp | ⟨s, hs, hcs⟩
        · exact absurd hsp (by decide)
        · exact hacc s hs hcs
      · rcases List.mem_cons.mp ht with he | hr
        · exact absurd he (by simp)
        · exact ih [] (by simp) hrest t hr
    · by_cases h2 : pyStrip l = ""
      · simp only [h1, h2, reduceIte] at h
        rcases List.mem_append.mp h with hf | hr
        · obtain ⟨hne, he⟩ := flushPara_mem hf
          obtain rfl : t = joinSpace acc := ContentElement.paragraph.inj he
          intro hn
          rcases joinSpace_data_sub acc '\n' hn with hsp | ⟨s, hs, hcs⟩
          · exact absurd hsp (by decide)
          · exact hacc s hs hcs
        · exact ih [] (by simp) hrest t hr
      · simp only [h1, h2, reduceIte] at h
        refine ih _ ?_ hrest t h
        intro s hs
        rcases List.mem_append.mp hs with hs1 | hs2
        · exact hacc s hs1
        · have : s = pyStrip l := by simpa using hs2
          rw [this]
          intro hn
          exact hls l (by simp) (stripChars_sub '\n' hn)

theorem splitNlAux_noNl :
    ∀ (l cur : List Char), '\n' ∉ cur → ∀ s ∈ splitNlAux cur l, '\n' ∉ s.data := by
  intro l
  induction l with
  | nil =>
    intro cur hcur s hs
    rw [splitNlAux] at hs
    simp at hs
    rw [hs]
    exact hcur
  | cons c rest ih =>
    intro cur hcur s hs
    rw [splitNlAux] at hs
    by_cases hc : c = '\n'
    · simp only [hc, if_pos rfl] at hs
      rcases List.mem_cons.mp hs with he | hr
      · rw [he]; exact hcur
      · exact ih [] (by simp) s hr
    · simp only [hc, reduceIte] at hs
      refine ih (cur ++ [c]) ?_ s hs
      intro hn
      rcases List.mem_append.mp hn with h1 | h2
      · exact hcur h1
      · simp at h2
        exact hc h2.symm

theorem splitNl_noNl (text : String) : ∀ s ∈ splitNl text, '\n' ∉ s.data :=
  splitNlAux_noNl text.data [] (by simp)

theorem parseLines_paragraph_sub :
    ∀ (ls : List String) (t : String), ContentElement.paragraph t ∈ parseLines ls →
      ∃ ls2, (∀ l ∈ ls2, l ∈ ls) ∧ ContentElement.paragraph t ∈ parseBody [] ls2 := by
  intro ls t h
  cases ls with
  | nil => exact ⟨[], by simp, h⟩
  | cons l rest =>
    by_cases hm : headingMatch l
    · rcases hd : rest.dropWhile (fun x => pyStrip x = "") with _ | ⟨s, rest2⟩
      · refine ⟨[], by simp, ?_⟩
        simp only [parseLines, hm, if_pos rfl, hd] at h
        rcases List.mem_cons.mp h with he | hr
        · exact absurd he (by simp)
        · exact hr
      · refine ⟨rest2, ?_, ?_⟩
        · intro x hx
          have h1 : x ∈ rest.dropWhile (fun x => pyStrip x = "") := by
            rw [hd]; exact List.mem_cons_of_mem s hx
          exact List.mem_cons_of_mem l
            ((List.dropWhile_sublist (fun x => pyStrip x = "")).subset h1)
        · simp only [parseLines, hm, if_pos rfl, hd] at h
          rcases List.mem_cons.mp h with he | hr
          · exact absurd he (by simp)
          · rcases List.mem_cons.mp hr with he2 | hr2
            · exact absurd he2 (by simp)
            · exact hr2
    · refine ⟨l :: rest, by simp, ?_⟩
      simp only [parseLines, hm] at h
      simpa using h

theorem pyStrip_empty : pyStrip "" = "" := rfl

theorem parseBody_run_flush :
    ∀ (run acc rest : List String),
      (∀ l ∈ run, pyStrip l ≠ "" ∧ pyStrip l ≠ "* * *") →
      parseBody acc (run ++ "" :: rest) =
        flushPara (acc ++ run.map pyStrip) ++ parseBody [] rest := by
  intro run
  induction run with
  | nil =>
    intro acc rest _
    rw [List.nil_append, parseBody]
    simp [pyStrip_empty]
  | cons l run2 ih =>
    intro acc rest hrun
    have hl := hrun l (by simp)
    rw [List.cons_append, parseBody]
    simp only [hl.2, hl.1, reduceIte]
    rw [ih (acc ++ [pyStrip l]) rest (fun x hx => hrun x (List.mem_cons_of_mem l hx))]
    simp [List.append_assoc]

theorem parseBody_all_blank :
    ∀ ls : List String, (∀ l ∈ ls, pyStrip l = "") → parseBody [] ls = [] := by
  intro ls
  induction ls with
  | nil => intro _; rfl
  | cons l rest ih =>
    intro hbl
    have hl := hbl l (by simp)
    rw [parseBody]
    simp only [hl, reduceIte]
    rw [ih (fun x hx => hbl x (List.mem_cons_of_mem l hx))]
    simp [flushPara]

theorem parse_chapter_para_clean {s t : String}
    (h : ContentElement.paragraph t ∈ parse_chapter s) : cleanS t := by
  obtain ⟨ls2, _, hmem⟩ := parseLines_paragraph_sub (splitNl s) t h
  exact parseBody_para_clean ls2 [] (by simp) t hmem

theorem parse_chapter_para_noNl {s t : String}
    (h : ContentElement.paragraph t ∈ parse_chapter s) : '\n' ∉ t.data := by
  obtain ⟨ls2, hsub, hmem⟩ := parseLines_paragraph_sub (splitNl s) t h
  exact parseBody_para_noNl ls2 [] (by simp)
    (fun l hl => splitNl_noNl s l (hsub l hl)) t hmem

theorem parseBody_no_heading_subtitle {acc ls : List String} {e : ContentElement}
    (h : e ∈ parseBody acc ls) :
    (∀ t, e ≠ ContentElement.heading t) ∧ (∀ t, e ≠ ContentElement.subtitle t) := by
  rcases parseBody_only_para_break ls acc e h with ⟨t, rfl⟩ | rfl
  · exact ⟨by simp, by simp⟩
  · exact ⟨by simp, by simp⟩

theorem parseLines_shape (ls : List String) :
    ∃ rest : List ContentElement,
      (∀ e ∈ rest, (∀ t, e ≠ ContentElement.heading t) ∧
                   (∀ t, e ≠ ContentElement.subtitle t)) ∧
      (parseLines ls = rest ∨
       (∃ h, parseLines ls = ContentElement.heading h :: rest) ∨
       (∃ h s, parseLines ls = ContentElement.heading h ::
                 ContentElement.subtitle s :: rest)) := by
  cases ls with
  | nil =>
    exact ⟨parseBody [] [], fun e he => parseBody_no_heading_subtitle he, Or.inl rfl⟩
  | cons l rest =>
    by_cases hm : headingMatch l
    · rcases hd : rest.dropWhile (fun x => pyStrip x = "") with _ | ⟨s, rest2⟩
      · refine ⟨parseBody [] [], fun e he => parseBody_no_heading_subtitle he, ?_⟩
        right; left
        exact ⟨l, by simp [parseLines, hm, hd]⟩
      · refine ⟨parseBody [] rest2, fun e he => parseBody_no_heading_subtitle he, ?_⟩
        right; right
        exact ⟨l, s, by simp [parseLines, hm, hd]⟩
    · refine ⟨parseBody [] (l :: rest), fun e he => parseBody_no_heading_subtitle he, ?_⟩
      left
      simp [parseLines, hm]

theorem hdd_cons_of_ne {a : Char} {X : List Char} (h : a ≠ '-') :
    hasDoubleDash (a :: X) = hasDoubleDash X := by
  cases X with
  | nil => simp [hasDoubleDash]
  | cons b Y => simp [hasDoubleDash, h]

theorem hdd_cons_cons_of_ne {c d : Char} {X : List Char} (h : d ≠ '-') :
    hasDoubleDash (c :: d :: X) = hasDoubleDash (d :: X) := by
  simp [hasDoubleDash, h]

theorem replaceDashes_cons_of_ne {d : Char} {rest : List Char} (h : d ≠ '-') :
    ∃ Y, replaceDashes (d :: rest) = d :: Y := by
  cases rest with
  | nil => exact ⟨[], rfl⟩
  | cons r rs =>
    refine ⟨replaceDashes (r :: rs), ?_⟩
    rw [replaceDashes, if_neg (fun hc => h hc.1)]

theorem hdd_replaceDashes_aux :
    ∀ (n : Nat) (l : List Char), l.length ≤ n →
      hasDoubleDash (replaceDashes l) = false := by
  intro n
  induction n with
  | zero =>
    intro l h
    obtain rfl : l = [] := List.length_eq_zero.mp (Nat.le_zero.mp h)
    rfl
  | succ n ih =>
    intro l h
    match l with
    | [] => rfl
    | [c] => rfl
    | c :: d :: rest =>
      simp only [List.length_cons] at h
      by_cases hcd : c = '-' ∧ d = '-'
      · rw [replaceDashes, if_pos hcd, hdd_cons_of_ne (by decide : '—' ≠ '-')]
        exact ih rest (by omega)
      · rw [replaceDashes, if_neg hcd]
        by_cases hc : c = '-'
        · have hd : d ≠ '-' := fun hd => hcd ⟨hc, hd⟩
          obtain ⟨Y, hY⟩ := @replaceDashes_cons_of_ne d rest hd
          rw [hY, hdd_cons_cons_of_ne hd, ← hY]
          exact ih (d :: rest) (by simp; omega)
        · rw [hdd_cons_of_ne hc]
          exact ih (d :: rest) (by simp; omega)

theorem hdd_replaceDashes (l : List Char) :
    hasDoubleDash (replaceDashes l) = false :=
  hdd_replaceDashes_aux l.length l le_rfl

theorem replaceDashes_eq_self_aux :
    ∀ (n : Nat) (l : List Char), l.length ≤ n → hasDoubleDash l = false →
      replaceDashes l = l := by
  intro n
  induction n with
  | zero =>
    intro l h _
    obtain rfl : l = [] := List.length_eq_zero.mp (Nat.le_zero.mp h)
    rfl
  | succ n ih =>
    intro l h hdd
    match l with
    | [] => rfl
    | [c] => rfl
    | c :: d :: rest =>
      simp only [List.length_cons] at h
      rw [hasDoubleDash] at hdd
      have h1 : ¬(c = '-' ∧ d = '-') := by
        intro hcd
        simp [hcd.1, hcd.2] at hdd
      have h2 : hasDoubleDash (d :: rest) = false := by
        rcases Bool.or_eq_false_iff.mp hdd with ⟨_, h2⟩
        exact h2
      rw [replaceDashes, if_neg h1, ih (d :: rest) (by simp; omega) h2]

theorem replaceDashes_eq_self {l : List Char} (h : hasDoubleDash l = false) :
    replaceDashes l = l :=
  replaceDashes_eq_self_aux l.length l le_rfl h

theorem replaceDashes_idem (l : List Char) :
    replaceDashes (replaceDashes l) = replaceDashes l :=
  replaceDashes_eq_self (hdd_replaceDashes l)

theorem string_join_nil : String.join [] = "" := rfl

theorem string_join_cons (s : String) (l : List String) :
    String.join (s :: l) = s ++ String.join l := by
  rw [String.join_eq, String.join_eq]
  apply String.ext
  simp

theorem string_join_append (a b : List String) :
    String.join (a ++ b) = String.join a ++ String.join b := by
  rw [String.join_eq, String.join_eq, String.join_eq]
  apply String.ext
  simp

theorem chapterParts_append (cs1 cs2 : List (List ContentElement)) :
    chapterParts (cs1 ++ cs2) = chapterParts cs1 ++ chapterParts cs2 := by
  induction cs1 with
  | nil => simp [chapterParts]
  | cons ch rest ih =>
    rw [List.cons_append, chapterParts, chapterParts, ih]
    simp

theorem chaptersHtml_eq_map_renderChapter (cs : List (List ContentElement)) :
    chaptersHtml cs = String.join (cs.map renderChapter) := by
  induction cs with
  | nil => rfl
  | cons ch rest ih =>
    rw [chaptersHtml, chapterParts, string_join_cons, List.map_cons, string_join_cons,
      ← ih, chaptersHtml, string_join_append, string_join_cons, renderChapter]
    simp [String.append_assoc]

theorem parseLines_heading_mem :
    ∀ (ls : List String) (t : String),
      ContentElement.heading t ∈ parseLines ls → t ∈ ls := by
  intro ls t h
  cases ls with
  | nil =>
    simp only [parseLines] at h
    exact absurd rfl ((parseBody_no_heading_subtitle h).1 t)
  | cons l rest =>
    by_cases hm : headingMatch l
    · rcases hd : rest.dropWhile (fun x => pyStrip x = "") with _ | ⟨s, rest2⟩
      · simp only [parseLines, hm, if_pos rfl, hd] at h
        rcases List.mem_cons.mp h with he | hr
        · obtain rfl : t = l := ContentElement.heading.inj he
          simp
        · exact absurd rfl ((parseBody_no_heading_subtitle hr).1 t)
      · simp only [parseLines, hm, if_pos rfl, hd] at h
        rcases List.mem_cons.mp h with he | hr
        · obtain rfl : t = l := ContentElement.heading.inj he
          simp
        · rcases List.mem_cons.mp hr with he2 | hr2
          · exact absurd he2 (by simp)
          · exact absurd rfl ((parseBody_no_heading_subtitle hr2).1 t)
    · simp only [parseLines, hm, Bool.false_eq_true, if_false] at h
      exact absurd rfl ((parseBody_no_heading_subtitle h).1 t)

theorem parseLines_subtitle_mem :
    ∀ (ls : List String) (t : String),
      ContentElement.subtitle t ∈ parseLines ls → t ∈ ls := by
  intro ls t h
  cases ls with
  | nil =>
    simp only [parseLines] at h
    exact absurd rfl ((parseBody_no_heading_subtitle h).2 t)
  | cons l rest =>
    by_cases hm : headingMatch l
    · rcases hd : rest.dropWhile (fun x => pyStrip x = "") with _ | ⟨s, rest2⟩
      · simp only [parseLines, hm, if_pos rfl, hd] at h
        rcases List.mem_cons.mp h with he | hr
        · exact absurd he (by simp)
        · exact absurd rfl ((parseBody_no_heading_subtitle hr).2 t)
      · simp only [parseLines, hm, if_pos rfl, hd] at h
        rcases List.mem_cons.mp h with he | hr
        · exact absurd he (by simp)
        · rcases List.mem_cons.mp hr with he2 | hr2
          · obtain rfl : t = s := ContentElement.subtitle.inj he2
            have hs : t ∈ rest.dropWhile (fun x => pyStrip x = "") := by
              rw [hd]; simp
            exact List.mem_cons_of_mem l
              ((List.dropWhile_sublist (fun x => pyStrip x = "")).subset hs)
          · exact absurd rfl ((parseBody_no_heading_subtitle hr2).2 t)
    · simp only [parseLines, hm, Bool.false_eq_true, if_false] at h
      exact absurd rfl ((parseBody_no_heading_subtitle h).2 t)

/-- C1: if the first line matches the heading pattern (the source regex
`^CHAPTER\s+\d+`), `parse` emits that line as the heading, skips the
immediately following blank lines and, when a line remains, emits it as
the subtitle; if the first line does not match, no heading or subtitle
element is ever emitted.  The concrete input `"CHAPTER 1\n\nPrologue"`
yields `[Heading "CHAPTER 1", Subtitle "Prologue"]`. -/
theorem C1_heading_subtitle_prologue :
    (∀ (l : String) (rest : List String), headingMatch l = true →
        parseLines (l :: rest) =
          ContentElement.heading l ::
            (match rest.dropWhile (fun x => pyStrip x = "") with
             | [] => []
             | s :: rest2 => ContentElement.subtitle s :: parseBody [] rest2)) ∧
    (∀ (l : String) (rest : List String) (e : ContentElement), headingMatch l = false →
        e ∈ parseLines (l :: rest) →
        (∀ t, e ≠ ContentElement.heading t) ∧ (∀ t, e ≠ ContentElement.subtitle t)) ∧
    parse_chapter "CHAPTER 1\n\nPrologue" =
      [ContentElement.heading "CHAPTER 1", ContentElement.subtitle "Prologue"] := by
  refine ⟨?_, ?_, by decide⟩
  · intro l rest hm
    rcases hd : rest.dropWhile (fun x => pyStrip x = "") with _ | ⟨s, rest2⟩
    · simp only [parseLines, hm, if_pos rfl, hd]
      rfl
    · simp only [parseLines, hm, if_pos rfl, hd]
      rfl
  · intro l rest e hm he
    simp only [parseLines, hm, Bool.false_eq_true, if_false] at he
    exact parseBody_no_heading_subtitle he

/-- Witness for C1 at a concrete input. -/
theorem C1_witness :
    parseLines ["CHAPTER 1", "", "Prologue"] =
      [ContentElement.heading "CHAPTER 1", ContentElement.subtitle "Prologue"] := by
  rw [C1_heading_subtitle_prologue.1 "CHAPTER 1" ["", "Prologue"] (by decide)]
  decide

/-- C2: consecutive non-blank, non-scene-break lines accumulate into
exactly one paragraph whose text is the stripped lines joined by single
spaces; paragraph text never contains a newline; lines that are entirely
blank produce no element at all.  The concrete input
`"Hello\nworld\n\nNext para"` yields exactly the two paragraphs
`"Hello world"` and `"Next para"`. -/
theorem C2_paragraph_accumulation :
    parse_chapter "Hello\nworld\n\nNext para" =
      [ContentElement.paragraph "Hello world", ContentElement.paragraph "Next para"] ∧
    (∀ s t : String, ContentElement.paragraph t ∈ parse_chapter s → '\n' ∉ t.data) ∧
    (∀ run rest : List String, run ≠ [] →
        (∀ l ∈ run, pyStrip l ≠ "" ∧ pyStrip l ≠ "* * *") →
        parseBody [] (run ++ "" :: rest) =
          ContentElement.paragraph (joinSpace (run.map pyStrip)) :: parseBody [] rest) ∧
    (∀ ls : List String, (∀ l ∈ ls, pyStrip l = "") → parseBody [] ls = []) := by
  refine ⟨by decide, fun s t h => parse_chapter_para_noNl h, ?_, parseBody_all_blank⟩
  intro run rest hne hrun
  rw [parseBody_run_flush run [] rest hrun]
  have hmapne : run.map pyStrip ≠ [] := by
    intro he
    exact hne (List.map_eq_nil_iff.mp he)
  simp [flushPara, hmapne]

/-- Witness for C2 at a concrete input. -/
theorem C2_witness :
    parseBody [] (["a", "b"] ++ "" :: ["c"]) =
      ContentElement.paragraph (joinSpace (["a", "b"].map pyStrip)) ::
        parseBody [] ["c"] :=
  C2_paragraph_accumulation.2.2.1 ["a", "b"] ["c"] (by decide) (by decide)

/-- C3 counterexample: a subtitle line is emitted verbatim, so the claim
that every emitted `Heading`/`Subtitle`/`Paragraph` text is stripped of
leading/trailing whitespace fails on `"CHAPTER 1\nPro "`, whose subtitle
text `"Pro "` keeps its trailing space. -/
theorem C3_counterexample :
    parse_chapter "CHAPTER 1\nPro " =
      [ContentElement.heading "CHAPTER 1", ContentElement.subtitle "Pro "] ∧
    pyStrip "Pro " ≠ "Pro " := by
  decide

/-- C3 (amended): paragraph texts are built from stripped lines and carry
no leading/trailing whitespace (and are non-empty), while heading and
subtitle texts are the source lines included verbatim, without any
stripping. -/
theorem C3_amended_trimming :
    (∀ s t : String, ContentElement.paragraph t ∈ parse_chapter s →
        pyStrip t = t ∧ t ≠ "") ∧
    (∀ (ls : List String) (t : String),
        ContentElement.heading t ∈ parseLines ls → t ∈ ls) ∧
    (∀ (ls : List String) (t : String),
        ContentElement.subtitle t ∈ parseLines ls → t ∈ ls) := by
  refine ⟨?_, parseLines_heading_mem, parseLines_subtitle_mem⟩
  intro s t h
  have hc := parse_chapter_para_clean h
  exact ⟨pyStrip_eq_self_of_clean hc.2, hc.1⟩

/-- Witness for C3 (amended) at a concrete input. -/
theorem C3_witness :
    pyStrip "Hello world" = "Hello world" ∧ "Hello world" ≠ "" :=
  C3_amended_trimming.1 "Hello\nworld" "Hello world" (by decide)

/-- C4: `parse` is total (a Lean function by construction), never
produces an empty paragraph (every paragraph text is non-empty after
trimming), the single line `"* * *"` yields exactly `[SceneBreak]`, and
the empty input yields the empty element sequence. -/
theorem C4_total_no_empty_paragraph :
    (∀ s t : String, ContentElement.paragraph t ∈ parse_chapter s → pyStrip t ≠ "") ∧
    parse_chapter "* * *" = [ContentElement.sceneBreak] ∧
    parse_chapter "" = [] := by
  refine ⟨?_, by decide, by decide⟩
  intro s t h
  have hc := parse_chapter_para_clean h
  rw [pyStrip_eq_self_of_clean hc.2]
  exact hc.1

/-- Witness for C4 at a concrete input. -/
theorem C4_witness : pyStrip "X" ≠ "" :=
  C4_total_no_empty_paragraph.1 "* * *\nX" "X" (by decide)

/-- C5: the per-chapter suppress-indentation flag starts false at each
chapter (paragraphs of a heading-less chapter start indented), is set by
heading, subtitle and scene-break elements, and is consumed and cleared
by the next paragraph, which renders as the no-indent variant; all other
paragraphs render as the standard variant.  For the chapter
`[Heading h, Paragraph p1, Paragraph p2]` exactly `p1` is rendered
no-indent and `p2` standard. -/
theorem C5_indent_suppression :
    (∀ h p1 p2 : String,
        renderElems false
            [ContentElement.heading h, ContentElement.paragraph p1,
             ContentElement.paragraph p2] =
          ["  <div class=\"chapter-heading\">" ++
             typographic_substitutions (htmlEscape h) ++ "</div>\n",
           "  <p class=\"no-indent\">" ++
             typographic_substitutions (htmlEscape p1) ++ "</p>\n",
           "  <p>" ++ typographic_substitutions (htmlEscape p2) ++ "</p>\n"]) ∧
    (∀ (p : String) (rest : List ContentElement),
        renderElems false (ContentElement.paragraph p :: rest) =
          ("  <p>" ++ typographic_substitutions (htmlEscape p) ++ "</p>\n") ::
            renderElems false rest) ∧
    (∀ (p : String) (rest : List ContentElement),
        renderElems true (ContentElement.paragraph p :: rest) =
          ("  <p class=\"no-indent\">" ++
             typographic_substitutions (htmlEscape p) ++ "</p>\n") ::
            renderElems false rest) ∧
    (∀ (b : Bool) (t : String) (rest : List ContentElement),
        renderElems b (ContentElement.heading t :: rest) =
          ("  <div class=\"chapter-heading\">" ++
             typographic_substitutions (htmlEscape t) ++ "</div>\n") ::
            renderElems true rest ∧
        renderElems b (ContentElement.subtitle t :: rest) =
          ("  <div class=\"chapter-subtitle\">" ++
             typographic_substitutions (htmlEscape t) ++ "</div>\n") ::
            renderElems true rest ∧
        renderElems b (ContentElement.sceneBreak :: rest) =
          "  <div class=\"scene-break\">* &ensp; * &ensp; *</div>\n" ::
            renderElems true rest) ∧
    (∀ (ch : List ContentElement) (rest : List (List ContentElement)),
        chapterParts (ch :: rest) =
          "<div class=\"chapter\">\n" ::
            (renderElems false ch ++ ("</div>\n" :: chapterParts rest))) :=
  ⟨fun _ _ _ => rfl, fun _ _ => rfl, fun _ _ => rfl,
   fun _ _ _ => ⟨rfl, rfl, rfl⟩, fun _ _ => rfl⟩

/-- C6: the typographic normalizer replaces every `--` with an em-dash
and performs no other substitution (a text with no `--` occurrence is
returned unchanged), it is idempotent, and
`normalize("well--known") = "well—known"`. -/
theorem C6_normalizer :
    (∀ s : String, hasDoubleDash s.data = false → typographic_substitutions s = s) ∧
    (∀ s : String,
        typographic_substitutions (typographic_substitutions s) =
          typographic_substitutions s) ∧
    typographic_substitutions "well--known" = "well—known" := by
  refine ⟨?_, ?_, by decide⟩
  · intro s h
    show String.mk (replaceDashes s.data) = s
    rw [replaceDashes_eq_self h]
  · intro s
    show String.mk (replaceDashes (replaceDashes s.data)) =
      String.mk (replaceDashes s.data)
    rw [replaceDashes_idem]

/-- Witness for C6 at a concrete input. -/
theorem C6_witness : typographic_substitutions "one-two" = "one-two" :=
  C6_normalizer.1 "one-two" (by decide)

/-- C7: every element sequence produced by `parse` contains at most one
heading, always in first position, and at most one subtitle, always
immediately after the heading: the output is a heading/subtitle-free
tail, optionally preceded by a heading, optionally with a subtitle
between them. -/
theorem C7_heading_subtitle_invariant :
    ∀ s : String, ∃ rest : List ContentElement,
      (∀ e ∈ rest, (∀ t, e ≠ ContentElement.heading t) ∧
                   (∀ t, e ≠ ContentElement.subtitle t)) ∧
      (parse_chapter s = rest ∨
       (∃ h, parse_chapter s = ContentElement.heading h :: rest) ∨
       (∃ h sub, parse_chapter s =
          ContentElement.heading h :: ContentElement.subtitle sub :: rest)) :=
  fun s => parseLines_shape (splitNl s)

/-- Witness for C7 at a concrete input. -/
theorem C7_witness :
    ∃ rest : List ContentElement,
      (∀ e ∈ rest, (∀ t, e ≠ ContentElement.heading t) ∧
                   (∀ t, e ≠ ContentElement.subtitle t)) ∧
      (parse_chapter "CHAPTER 1\n\nPrologue" = rest ∨
       (∃ h, parse_chapter "CHAPTER 1\n\nPrologue" =
          ContentElement.heading h :: rest) ∨
       (∃ h sub, parse_chapter "CHAPTER 1\n\nPrologue" =
          ContentElement.heading h :: ContentElement.subtitle sub :: rest)) :=
  C7_heading_subtitle_invariant "CHAPTER 1\n\nPrologue"

/-- C8: the assembler preserves chapter order: the document is the fixed
preamble, the title block, the chapter containers rendered one after the
other in exactly the input order, and the fixed closing; rendering the
chapter sequence is a list homomorphism (append goes to append), so no
chapter is reordered, inserted or omitted. -/
theorem C8_chapter_order :
    (∀ (css : String) (t a : Option String) (cs : List (List ContentElement)),
        build_html css cs t a =
          docHeader css ++ String.join (titleParts t a) ++ chaptersHtml cs ++
            "</body>\n</html>\n") ∧
    (∀ cs : List (List ContentElement),
        chaptersHtml cs = String.join (cs.map renderChapter)) ∧
    (∀ cs1 cs2 : List (List ContentElement),
        chaptersHtml (cs1 ++ cs2) = chaptersHtml cs1 ++ chaptersHtml cs2) := by
  refine ⟨?_, chaptersHtml_eq_map_renderChapter, ?_⟩
  · intro css t a cs
    rw [build_html, string_join_append, string_join_append, string_join_append]
    rw [string_join_cons, string_join_cons, string_join_cons, string_join_nil,
      string_join_cons, string_join_nil]
    rw [docHeader, chaptersHtml]
    simp [String.append_assoc]
  · intro cs1 cs2
    rw [chaptersHtml, chaptersHtml, chaptersHtml, chapterParts_append,
      string_join_append]

/-- C9: title and author are escaped but not passed through the
typographic normalizer: the title page renders `htmlEscape` of the raw
strings, escaping preserves every `--` occurrence verbatim, so a title
containing `--` keeps it (no em-dash), unlike heading (and subtitle and
paragraph) text, which is rendered as
`typographic_substitutions (htmlEscape text)`. -/
theorem C9_title_author_not_normalized :
    (∀ t a : String, t ≠ "" → a ≠ "" →
        titleParts (some t) (some a) =
          ["<div class=\"title-page\">\n",
           "  <div class=\"book-title\">" ++ htmlEscape t ++ "</div>\n",
           "  <div class=\"book-author\">" ++ htmlEscape a ++ "</div>\n",
           "</div>\n"]) ∧
    (∀ l1 l2 : List Char,
        (htmlEscape (String.mk (l1 ++ '-' :: '-' :: l2))).data =
          l1.flatMap escChar ++ '-' :: '-' :: l2.flatMap escChar) ∧
    (htmlEscape "well--known" = "well--known" ∧
     typographic_substitutions (htmlEscape "well--known") = "well—known") ∧
    (∀ (b : Bool) (t : String) (rest : List ContentElement),
        renderElems b (ContentElement.heading t :: rest) =
          ("  <div class=\"chapter-heading\">" ++
             typographic_substitutions (htmlEscape t) ++ "</div>\n") ::
            renderElems true rest) := by
  refine ⟨?_, ?_, by decide, fun _ _ _ => rfl⟩
  · intro t a ht ha
    simp [titleParts, isTruthy, ht, ha]
  · intro l1 l2
    show (l1 ++ '-' :: '-' :: l2).flatMap escChar =
      l1.flatMap escChar ++ '-' :: '-' :: l2.flatMap escChar
    rw [List.flatMap_append, List.flatMap_cons, List.flatMap_cons]
    have h : escChar '-' = ['-'] := by decide
    rw [h]
    rfl

/-- Witness for C9 at a concrete input. -/
theorem C9_witness :
    titleParts (some "T") (some "A") =
      ["<div class=\"title-page\">\n",
       "  <div class=\"book-title\">T</div>\n",
       "  <div class=\"book-author\">A</div>\n",
       "</div>\n"] := by
  rw [C9_title_author_not_normalized.1 "T" "A" (by decide) (by decide)]
  decide

/-- C10: after a recognised heading and the blank-line skip, the next
remaining (necessarily non-blank) line becomes the subtitle whatever its
content, and is not re-examined by the paragraph/scene-break loop; in
particular a `"* * *"` line in that position becomes a subtitle, not a
scene break. -/
theorem C10_subtitle_unconditional :
    (∀ (l s : String) (rest : List String), headingMatch l = true → pyStrip s ≠ "" →
        parseLines (l :: "" :: s :: rest) =
          ContentElement.heading l :: ContentElement.subtitle s ::
            parseBody [] rest) ∧
    parse_chapter "CHAPTER 1\n\n* * *" =
      [ContentElement.heading "CHAPTER 1", ContentElement.subtitle "* * *"] := by
  refine ⟨?_, by decide⟩
  intro l s rest hm hs
  have hd : ("" :: s :: rest).dropWhile (fun x => decide (pyStrip x = "")) =
      s :: rest := by
    rw [List.dropWhile_cons_of_pos (by simp [pyStrip_empty]),
      List.dropWhile_cons_of_neg (by simp [hs])]
  simp only [parseLines, hm, if_pos rfl, hd]
  rfl

/-- Witness for C10 at a concrete input. -/
theorem C10_witness :
    parseLines ["CHAPTER 9", "", "* * *"] =
      [ContentElement.heading "CHAPTER 9", ContentElement.subtitle "* * *"] := by
  rw [C10_subtitle_unconditional.1 "CHAPTER 9" "* * *" [] (by decide) (by decide)]
  decide

end BuildBook
